import Mathlib

/-!
Verification of the task/board state engine of the Now-And-Later
(Eisenhower matrix) application.

The definitions below are a shallow embedding of the TypeScript source:
`src/App.tsx` is the authority for the store operations
(`getTasksForQuadrant`, `getNextOrder`, `parseTags`, `addTask`, `updateTask`,
`completeTask`, `deleteTask`, `restoreTask`, `handleDrop`,
`handleKeyboardMove`, the search effect), and the Firebase variant of the
app (identical in both of its copies) is the authority for `deleteBoard`,
which the main file does not define.

Modelling conventions:
- JS numbers used as timestamps, ids and order values are modelled as `Nat`
  (the engine only ever assigns non-negative integers to `order`).
- JS `Date` values parsed from a date-only string are UTC midnights; we model
  them by their calendar components, with the 0-based month index and the
  1-based day of `getMonth` and `getDate`, and mirror the overflow
  normalisation of `setDate` and `setMonth`.
- JS `Array.prototype.sort` is stable (ES2019); we model it by a stable
  insertion sort, `stableSortBy`, which computes the same output as any
  stable sort with the same boolean comparison.
- React state setters are modelled by explicit state passing; every handler
  becomes a function from the application state (plus its inputs and the
  current `Date.now()` value) to a new state.
-/

namespace NowAndLater

/-- Stable insertion of one element into a list sorted by the boolean
comparison `le`: the element is placed before the first entry that is
strictly greater, hence after every earlier entry that compares equal. -/
def stableInsert (le : α → α → Bool) (x : α) : List α → List α
  | [] => [x]
  | y :: ys => if le y x && !(le x y) then y :: stableInsert le x ys else x :: y :: ys

/-- Stable sort by a boolean comparison; extensionally the stable merge sort
performed by JS `Array.prototype.sort`. -/
def stableSortBy (le : α → α → Bool) : List α → List α
  | [] => []
  | x :: xs => stableInsert le x (stableSortBy le xs)

theorem stableInsert_perm (le : α → α → Bool) (x : α) :
    ∀ l : List α, List.Perm (stableInsert le x l) (x :: l) := by
  intro l
  induction l with
  | nil => simp [stableInsert]
  | cons y ys ih =>
    simp only [stableInsert]
    split
    · exact (ih.cons y).trans (List.Perm.swap x y ys)
    · exact List.Perm.refl _

theorem stableSortBy_perm (le : α → α → Bool) :
    ∀ l : List α, List.Perm (stableSortBy le l) l := by
  intro l
  induction l with
  | nil => simp [stableSortBy]
  | cons x xs ih =>
    exact (stableInsert_perm le x (stableSortBy le xs)).trans (ih.cons x)

theorem mem_stableSortBy (le : α → α → Bool) (l : List α) (a : α) :
    a ∈ stableSortBy le l ↔ a ∈ l :=
  (stableSortBy_perm le l).mem_iff

theorem length_stableSortBy (le : α → α → Bool) (l : List α) :
    (stableSortBy le l).length = l.length :=
  (stableSortBy_perm le l).length_eq

theorem pairwise_stableInsert (le : α → α → Bool)
    (total : ∀ a b, le a b || le b a)
    (trans : ∀ a b c, le a b = true → le b c = true → le a c = true)
    (x : α) :
    ∀ l : List α, l.Pairwise (fun a b => le a b = true) →
      (stableInsert le x l).Pairwise (fun a b => le a b = true) := by
  intro l
  induction l with
  | nil => intro _; simp [stableInsert]
  | cons y ys ih =>
    intro h
    rw [List.pairwise_cons] at h
    obtain ⟨hy, hys⟩ := h
    simp only [stableInsert]
    by_cases hcond : (le y x && !(le x y)) = true
    · rw [if_pos hcond]
      rw [Bool.and_eq_true, Bool.not_eq_true'] at hcond
      rw [List.pairwise_cons]
      refine ⟨?_, ih hys⟩
      intro z hz
      rw [(stableInsert_perm le x ys).mem_iff, List.mem_cons] at hz
      rcases hz with hz | hz
      · subst hz; exact hcond.1
      · exact hy z hz
    · rw [if_neg hcond]
      rw [Bool.and_eq_true, Bool.not_eq_true'] at hcond
      have hxy : le x y = true := by
        by_cases h1 : le y x = true
        · by_cases h2 : le x y = true
          · exact h2
          · exact absurd ⟨h1, Bool.eq_false_iff.mpr h2⟩ hcond
        · have ht := total x y
          rw [Bool.or_eq_true] at ht
          rcases ht with h3 | h3
          · exact h3
          · exact absurd h3 h1
      rw [List.pairwise_cons]
      refine ⟨?_, ?_⟩
      · intro z hz
        rcases List.mem_cons.mp hz with hz | hz
        · subst hz; exact hxy
        · exact trans x y z hxy (hy z hz)
      · rw [List.pairwise_cons]
        exact ⟨hy, hys⟩

theorem pairwise_stableSortBy (le : α → α → Bool)
    (total : ∀ a b, le a b || le b a)
    (trans : ∀ a b c, le a b = true → le b c = true → le a c = true) :
    ∀ l : List α, (stableSortBy le l).Pairwise (fun a b => le a b = true) := by
  intro l
  induction l with
  | nil => simp [stableSortBy]
  | cons x xs ih => exact pairwise_stableInsert le total trans x _ ih

/-! ## The calendar model of JS `Date` -/

/-- A calendar date holding the JS `Date` UTC components: `month` is the
0-based month index of `getMonth`, `day` the 1-based day of `getDate`. -/
structure Date where
  year : Nat
  month : Nat
  day : Nat
deriving DecidableEq, Repr

/-- Gregorian leap year test. -/
def isLeap (y : Nat) : Bool := (y % 4 == 0 && y % 100 != 0) || y % 400 == 0

/-- Length of the month with 0-based index `m` of year `y` (months outside
0..11 never reach this function un-normalised; they fall to the default 31). -/
def daysInMonth (y m : Nat) : Nat :=
  if m == 1 then (if isLeap y then 29 else 28)
  else if m == 3 || m == 5 || m == 8 || m == 10 then 30
  else 31

theorem daysInMonth_ge (y m : Nat) : 28 ≤ daysInMonth y m := by
  unfold daysInMonth
  split
  · split <;> omega
  · split <;> omega

theorem daysInMonth_le (y m : Nat) : daysInMonth y m ≤ 31 := by
  unfold daysInMonth
  split
  · split <;> omega
  · split <;> omega

/-- Day-overflow normalisation of JS `Date`: while the day exceeds the length
of the current month, subtract that length and advance the month. The fuel
argument only bounds the recursion; fuel ≥ day is always enough because every
step removes at least 28 days. Expects a month index below 12. -/
def rollDays : Nat → Nat → Nat → Nat → Date
  | 0, y, m, d => ⟨y, m, d⟩
  | fuel + 1, y, m, d =>
    if d ≤ daysInMonth y m then ⟨y, m, d⟩
    else rollDays fuel (if m == 11 then y + 1 else y) (if m == 11 then 0 else m + 1)
      (d - daysInMonth y m)

/-- Normalisation of out-of-range JS `Date` components (the semantics of
`setDate` and `setMonth`): month overflow first rolls into later years, then
day overflow rolls into later months. -/
def normDate (y m d : Nat) : Date := rollDays d (y + m / 12) (m % 12) d

/-- The canonical calendar successor of a valid date (specification side,
written from the calendar, not from the code). -/
def nextCalendarDay (dt : Date) : Date :=
  if dt.day < daysInMonth dt.year dt.month then ⟨dt.year, dt.month, dt.day + 1⟩
  else if dt.month == 11 then ⟨dt.year + 1, 0, 1⟩
  else ⟨dt.year, dt.month + 1, 1⟩

/-- Advancing a date by a number of calendar days, one day at a time. -/
def addCalendarDays (dt : Date) : Nat → Date
  | 0 => dt
  | k + 1 => addCalendarDays (nextCalendarDay dt) k

/-- A date is valid when its month index is in range and its day fits the
month. -/
def ValidDate (dt : Date) : Prop :=
  dt.month < 12 ∧ 1 ≤ dt.day ∧ dt.day ≤ daysInMonth dt.year dt.month

theorem rollDays_eq_addCalendarDays :
    ∀ (k y m d fuel : Nat), m < 12 → 1 ≤ d → d ≤ daysInMonth y m →
      d + k ≤ fuel → rollDays fuel y m (d + k) = addCalendarDays ⟨y, m, d⟩ k := by
  intro k
  induction k with
  | zero =>
    intro y m d fuel _ hd1 hd2 hf
    cases fuel with
    | zero => omega
    | succ f =>
      simp only [Nat.add_zero] at hf ⊢
      simp only [rollDays, if_pos hd2, addCalendarDays]
  | succ k ih =>
    intro y m d fuel hm hd1 hd2 hf
    by_cases hlt : d < daysInMonth y m
    · have h1 : d + (k + 1) = (d + 1) + k := by omega
      rw [h1, ih y m (d + 1) fuel hm (by omega) (by omega) (by omega)]
      simp only [addCalendarDays, nextCalendarDay, if_pos hlt]
    · have hde : d = daysInMonth y m := by omega
      cases fuel with
      | zero => have := daysInMonth_ge y m; omega
      | succ f =>
        simp only [rollDays]
        rw [if_neg (by omega)]
        have harg : d + (k + 1) - daysInMonth y m = 1 + k := by omega
        rw [harg]
        have hge := daysInMonth_ge y m
        by_cases h11 : m = 11
        · subst h11
          simp only [beq_self_eq_true, if_true]
          rw [ih (y + 1) 0 1 f (by omega) (by omega)
            (le_trans (by omega) (daysInMonth_ge (y + 1) 0)) (by omega)]
          simp only [addCalendarDays, nextCalendarDay]
          rw [if_neg (by omega)]
          simp
        · have hne : (m == 11) = false := by simp [h11]
          simp only [hne, if_false, Bool.false_eq_true]
          rw [ih y (m + 1) 1 f (by omega) (by omega)
            (le_trans (by omega) (daysInMonth_ge y (m + 1))) (by omega)]
          simp only [addCalendarDays, nextCalendarDay]
          rw [if_neg (by omega), if_neg (by simp [h11])]

theorem normDate_add (y m d k : Nat) (hm : m < 12) (hd1 : 1 ≤ d)
    (hd2 : d ≤ daysInMonth y m) :
    normDate y m (d + k) = addCalendarDays ⟨y, m, d⟩ k := by
  unfold normDate
  rw [Nat.div_eq_of_lt hm, Nat.mod_eq_of_lt hm, Nat.add_zero]
  exact rollDays_eq_addCalendarDays k y m d (d + k) hm hd1 hd2 (le_refl _)

/-! ## JS string primitives

The handlers use `trim`, `split(",")`, `toLowerCase` and `includes`. They
are modelled structurally over the character list of the string so that
every concrete instance evaluates inside the kernel. -/

/-- The ASCII whitespace characters JS `trim` strips. -/
def jsIsSpace (c : Char) : Bool := c == ' ' || c == '\t' || c == '\n' || c == '\r'

/-- JS `String.prototype.trim`: strip whitespace from both ends. -/
def jsTrim (s : String) : String :=
  String.mk (((s.data.dropWhile jsIsSpace).reverse.dropWhile jsIsSpace).reverse)

/-- Accumulator pass of JS `split(",")`. -/
def jsSplitCommaAux : List Char → List Char → List String
  | [], acc => [String.mk acc.reverse]
  | c :: rest, acc =>
    if c == ',' then String.mk acc.reverse :: jsSplitCommaAux rest []
    else jsSplitCommaAux rest (c :: acc)

/-- JS `String.prototype.split` with the comma separator. -/
def jsSplitComma (s : String) : List String := jsSplitCommaAux s.data []

/-- JS `String.prototype.toLowerCase` (ASCII case folding). -/
def jsToLower (s : String) : String := String.mk (s.data.map Char.toLower)

/-! ## Data model (App.tsx interfaces `Board`, `Task`, `TaskFormData`) -/

/-- App.tsx `recurrence` field values. -/
inductive Recurrence where
  | none
  | daily
  | weekly
  | monthly
deriving DecidableEq, Repr

/-- App.tsx interface `Board`. -/
structure Board where
  id : String
  name : String
deriving DecidableEq, Repr

/-- App.tsx interface `Task`. Timestamps are `Date.now()` values; `dueDate`
is the parsed calendar date behind the stored date-only string (absent when
the stored field is null or empty). -/
structure Task where
  id : String
  boardId : String
  quadrantId : String
  title : String
  createdAt : Nat
  completed : Bool
  completedAt : Option Nat
  order : Nat
  dueDate : Option Date
  reminderAt : Option String
  tags : List String
  recurrence : Recurrence
deriving DecidableEq, Repr

/-- App.tsx interface `TaskFormData`; the due date and reminder fields carry
their parsed values (`none` models the empty form field, which the handlers
turn into null). -/
structure TaskFormData where
  title : String
  dueDate : Option Date
  reminderAt : Option String
  tags : String
  recurrence : Recurrence
deriving DecidableEq, Repr

/-- The store portion of the App component state: the board list, the active
board selector, the task collection, the active tag filter and the
field-scoped error messages (an association list modelling the JS object). -/
structure AppState where
  boards : List Board
  activeBoardId : String
  tasks : List Task
  activeTagFilter : Option String
  errorMessages : List (String × String)
deriving DecidableEq, Repr

/-- The four fixed quadrants (id and display name) of App.tsx. -/
def quadrantsList : List (String × String) :=
  [("Q1", "Urgent & Important"), ("Q2", "Not Urgent & Important"),
   ("Q3", "Urgent & Not Important"), ("Q4", "Not Urgent & Not Important")]

/-! ## Store operations (App.tsx handlers) -/

/-- App.tsx `getTasksForQuadrant`: the active tasks of the active board in
the given quadrant, restricted to the active tag filter when one is set,
sorted ascending by `order`. JS `Array.prototype.sort` is stable, so ties
keep storage order, which `stableSortBy` reproduces. -/
def getTasksForQuadrant (s : AppState) (quadrantId : String) : List Task :=
  let filteredTasks := s.tasks.filter fun task =>
    task.boardId == s.activeBoardId && task.quadrantId == quadrantId && !task.completed
  let filteredTasks2 :=
    match s.activeTagFilter with
    | some tag => filteredTasks.filter fun task => task.tags.contains tag
    | Option.none => filteredTasks
  stableSortBy (fun a b => decide (a.order ≤ b.order)) filteredTasks2

/-- App.tsx `getNextOrder`: one more than the maximal `order` of the
currently displayed quadrant list, or 0 when that list is empty. -/
def getNextOrder (s : AppState) (quadrantId : String) : Nat :=
  let quadrantTasks := getTasksForQuadrant s quadrantId
  if quadrantTasks.isEmpty then 0
  else (quadrantTasks.map Task.order).foldl Nat.max 0 + 1

/-- App.tsx `parseTags`: split the free-form string on commas, trim every
entry, and drop the empty ones. -/
def parseTags (tagsString : String) : List String :=
  ((jsSplitComma tagsString).map jsTrim).filter fun tag => decide (0 < tag.length)

/-- Overwrite the message stored under a key, modelling the JS object spread
used by `setErrorMessages`. -/
def setMsg (m : List (String × String)) (key msg : String) : List (String × String) :=
  (key, msg) :: m.filter fun kv => kv.1 != key

/-- App.tsx `addTask`: a whitespace-only title is rejected with a
field-scoped validation error and no other change; otherwise a new task is
appended with the next append order, parsed tags and the form fields.
`now` stands for the `Date.now()` calls that produce the id and the
creation time. -/
def addTask (s : AppState) (quadrantId : String) (formData : TaskFormData)
    (now : Nat) : AppState :=
  let title := jsTrim formData.title
  if title = "" then
    { s with errorMessages := setMsg s.errorMessages quadrantId "Task title is required" }
  else
    let newTask : Task :=
      { id := toString now
        boardId := s.activeBoardId
        quadrantId := quadrantId
        title := title
        createdAt := now
        completed := false
        completedAt := Option.none
        order := getNextOrder s quadrantId
        dueDate := formData.dueDate
        reminderAt := formData.reminderAt
        tags := parseTags formData.tags
        recurrence := formData.recurrence }
    { s with
        tasks := s.tasks ++ [newTask]
        errorMessages := setMsg s.errorMessages quadrantId "" }

/-- App.tsx `updateTask`: same title validation as `addTask`; on success the
listed fields of the matching task are replaced in place. -/
def updateTask (s : AppState) (taskId : String) (formData : TaskFormData) : AppState :=
  let trimmedTitle := jsTrim formData.title
  if trimmedTitle = "" then
    { s with errorMessages := setMsg s.errorMessages taskId "Task title is required" }
  else
    { s with
        tasks := s.tasks.map fun task =>
          if task.id == taskId then
            { task with
                title := trimmedTitle
                dueDate := formData.dueDate
                reminderAt := formData.reminderAt
                tags := parseTags formData.tags
                recurrence := formData.recurrence }
          else task
        errorMessages := setMsg s.errorMessages taskId "" }

/-- The next due date computed by the recurrence block of App.tsx
`completeTask`, with the JS `Date` arithmetic made explicit:
`setDate(getDate() + 1)`, `setDate(getDate() + 7)` and
`setMonth(getMonth() + 1)` all normalise overflowing components through
`normDate` instead of clamping them. -/
def nextDueDate (r : Recurrence) (d : Date) : Date :=
  match r with
  | Recurrence.daily => normDate d.year d.month (d.day + 1)
  | Recurrence.weekly => normDate d.year d.month (d.day + 7)
  | Recurrence.monthly => normDate d.year (d.month + 1) d.day
  | Recurrence.none => d

/-- App.tsx `completeTask`: mark the matching task completed and, when it
recurs and has a due date, append a clone carrying the next due date and an
`order` obtained from `getNextOrder` over the pre-completion state (the
React closure still reads the old `tasks` array). -/
def completeTask (s : AppState) (taskId : String) (now : Nat) : AppState :=
  match s.tasks.find? (fun t => t.id == taskId) with
  | Option.none => s
  | some task =>
    let tasks1 := s.tasks.map fun t =>
      if t.id == taskId then { t with completed := true, completedAt := some now } else t
    match task.recurrence, task.dueDate with
    | Recurrence.none, _ => { s with tasks := tasks1 }
    | _, Option.none => { s with tasks := tasks1 }
    | r, some d =>
      let nextTask : Task :=
        { task with
            id := toString now
            completed := false
            completedAt := Option.none
            dueDate := some (nextDueDate r d)
            order := getNextOrder s task.quadrantId
            createdAt := now }
      { s with tasks := tasks1 ++ [nextTask] }

/-- App.tsx `deleteTask`: unconditional removal by id. -/
def deleteTask (s : AppState) (taskId : String) : AppState :=
  { s with tasks := s.tasks.filter fun task => task.id != taskId }

/-- App.tsx `restoreTask`: clear the completed flag and timestamp of the
matching task and assign it a fresh `order` from `getNextOrder` over its
quadrant of the currently displayed list. -/
def restoreTask (s : AppState) (taskId : String) : AppState :=
  match s.tasks.find? (fun t => t.id == taskId) with
  | Option.none => s
  | some task =>
    { s with
        tasks := s.tasks.map fun t =>
          if t.id == taskId then
            { t with
                completed := false
                completedAt := Option.none
                order := getNextOrder s task.quadrantId }
          else t }

/-- The remaining-source predicate of the compaction pass of App.tsx
`handleDrop`: an active task of the given quadrant on the active board
other than the moved one. -/
def srcPred (s : AppState) (taskId sourceQuadrant : String) (v : Task) : Bool :=
  v.quadrantId == sourceQuadrant && !v.completed && v.boardId == s.activeBoardId
    && v.id != taskId

/-- The `newOrder` computation of App.tsx `handleDrop`: at an in-range
target index, the order of the task displayed there; otherwise the append
order. -/
def dropNewOrder (s : AppState) (targetQuadrantId : String)
    (targetIndex : Option Nat) : Nat :=
  match targetIndex with
  | some i =>
    if h : i < (getTasksForQuadrant s targetQuadrantId).length then
      ((getTasksForQuadrant s targetQuadrantId).get ⟨i, h⟩).order
    else getNextOrder s targetQuadrantId
  | Option.none => getNextOrder s targetQuadrantId

/-- The `updatedTasks` pass of App.tsx `handleDrop`: the moved task adopts
the target quadrant and the new order; with a target index present, every
other active task of the target quadrant on the active board with order at
least the new order shifts up by one. -/
def dropShift (s : AppState) (taskId targetQuadrantId : String)
    (targetIndex : Option Nat) (newOrder : Nat) : List Task :=
  s.tasks.map fun t =>
    if t.id == taskId then { t with quadrantId := targetQuadrantId, order := newOrder }
    else if t.quadrantId == targetQuadrantId && !t.completed
        && t.boardId == s.activeBoardId && targetIndex.isSome
        && decide (newOrder ≤ t.order) then
      { t with order := t.order + 1 }
    else t

/-- The `finalTasks` pass of App.tsx `handleDrop`: every active task of the
source quadrant on the active board other than the moved one is renumbered
to its position in the order-sorted remaining source list. -/
def dropCompact (s : AppState) (taskId sourceQuadrant : String)
    (updatedTasks : List Task) : List Task :=
  updatedTasks.map fun t =>
    if t.quadrantId == sourceQuadrant && !t.completed
        && t.boardId == s.activeBoardId then
      match (stableSortBy (fun a b => decide (a.order ≤ b.order))
          (updatedTasks.filter (srcPred s taskId sourceQuadrant))).findIdx?
          (fun u => u.id == t.id) with
      | some sourceIndex => { t with order := sourceIndex }
      | Option.none => t
    else t

/-- App.tsx `handleDrop`: move the dragged task into the target quadrant.
At an in-range target index the task adopts the `order` of the task
displayed there and every active task of the target quadrant on the active
board with `order` at least that value shifts up by one; afterwards the
active tasks of the source quadrant other than the moved one are renumbered
densely along their order-sorted sequence. -/
def handleDrop (s : AppState) (taskId sourceQuadrant targetQuadrantId : String)
    (targetIndex : Option Nat) : AppState :=
  match s.tasks.find? (fun t => t.id == taskId) with
  | Option.none => s
  | some _task =>
    { s with
        tasks := dropCompact s taskId sourceQuadrant
          (dropShift s taskId targetQuadrantId targetIndex
            (dropNewOrder s targetQuadrantId targetIndex)) }

/-- The order-sorted remaining source list over the pre-drop store: the
compaction pass resolves positions against this list, because the shift
pass never changes which tasks satisfy the remaining-source predicate. -/
def srcRemaining (s : AppState) (taskId sourceQuadrant : String) : List Task :=
  stableSortBy (fun a b => decide (a.order ≤ b.order))
    (s.tasks.filter (srcPred s taskId sourceQuadrant))

/-- Direction argument of App.tsx `handleKeyboardMove`. -/
inductive MoveDir where
  | up
  | down
deriving DecidableEq, Repr

/-- App.tsx `handleKeyboardMove`: with a direction, swap the `order` values
of the task and of its neighbour in the displayed quadrant list, a no-op at
either boundary; without a direction, append the task to the target
quadrant. JS `findIndex` yields -1 on a miss, so the index arithmetic runs
over `Int` exactly as in the source. -/
def handleKeyboardMove (s : AppState) (taskId targetQuadrantId : String)
    (direction : Option MoveDir) : AppState :=
  match s.tasks.find? (fun t => t.id == taskId) with
  | Option.none => s
  | some task =>
    match direction with
    | some dir =>
      let quadrantTasks := getTasksForQuadrant s task.quadrantId
      let currentIndex : Int :=
        match quadrantTasks.findIdx? (fun t => t.id == taskId) with
        | some n => (n : Int)
        | Option.none => -1
      let targetIdx : Int :=
        match dir with
        | MoveDir.up => currentIndex - 1
        | MoveDir.down => currentIndex + 1
      if 0 ≤ targetIdx ∧ targetIdx < (quadrantTasks.length : Int) then
        match quadrantTasks.get? targetIdx.toNat with
        | some targetTask =>
          { s with
              tasks := s.tasks.map fun t =>
                if t.id == taskId then { t with order := targetTask.order }
                else if t.id == targetTask.id then { t with order := task.order }
                else t }
        | Option.none => s
      else s
    | Option.none =>
      let newOrder := getNextOrder s targetQuadrantId
      { s with
          tasks := s.tasks.map fun t =>
            if t.id == taskId then { t with quadrantId := targetQuadrantId, order := newOrder }
            else t }

/-- App.tsx `createNewBoard`: a non-blank prompt answer appends a new board
with a fresh id and makes it active; a blank or cancelled prompt changes
nothing. -/
def createNewBoard (s : AppState) (boardName : String) (now : Nat) : AppState :=
  if jsTrim boardName = "" then s
  else
    { s with
        boards := s.boards ++ [⟨toString now, jsTrim boardName⟩]
        activeBoardId := toString now }

/-- `deleteBoard` of the Firebase variant of the app (both copies are
identical): cascade-delete the tasks of the board, drop the board, and when
the deleted board was active, activate the first remaining board or
synthesise the default board when none remain. -/
def deleteBoard (s : AppState) (boardId : String) : AppState :=
  let updatedTasks := s.tasks.filter fun task => task.boardId != boardId
  let updatedBoards := s.boards.filter fun board => board.id != boardId
  if s.activeBoardId = boardId then
    match updatedBoards with
    | [] =>
      { s with tasks := updatedTasks, boards := [⟨"1", "My Matrix"⟩], activeBoardId := "1" }
    | b :: bs =>
      { s with tasks := updatedTasks, boards := b :: bs, activeBoardId := b.id }
  else
    { s with tasks := updatedTasks, boards := updatedBoards }

/-! ## Search (the search effect of App.tsx) -/

/-- App.tsx interface `SearchResult`. -/
structure SearchResult where
  task : Task
  boardName : String
  quadrantName : String
  isArchived : Bool
deriving DecidableEq, Repr

/-- Does the second character list start the first one. -/
def leadChars : List Char → List Char → Bool
  | _, [] => true
  | [], _ :: _ => false
  | a :: as, b :: bs => a == b && leadChars as bs

/-- Character-list version of JS `String.prototype.includes`: does `sub`
occur contiguously inside `s`. -/
def hasChars (sub : List Char) : List Char → Bool
  | [] => leadChars [] sub
  | c :: rest => leadChars (c :: rest) sub || hasChars sub rest

/-- JS `s.includes(sub)` on strings. -/
def jsIncludes (s sub : String) : Bool := hasChars sub.toList s.toList

/-- The search effect of App.tsx: for a query whose trim is non-blank, scan
every task (every board, active and completed alike, in storage order) and
keep those whose lower-cased title or some lower-cased tag contains the
lower-cased query; a blank query produces no results. -/
def searchCompute (s : AppState) (searchQuery : String) : List SearchResult :=
  if jsTrim searchQuery = "" then []
  else
    let query := jsToLower searchQuery
    s.tasks.filterMap fun task =>
      let matchesTitle := jsIncludes (jsToLower task.title) query
      let matchesTags := task.tags.any fun tag => jsIncludes (jsToLower tag) query
      if matchesTitle || matchesTags then
        some
          { task := task
            boardName :=
              match s.boards.find? (fun b => b.id == task.boardId) with
              | some b => b.name
              | Option.none => "Unknown Board"
            quadrantName :=
              match quadrantsList.find? (fun q => q.1 == task.quadrantId) with
              | some q => q.2
              | Option.none => task.quadrantId
            isArchived := task.completed }
      else Option.none

/-! ## Command language and reachable states (for the ordering invariant) -/

/-- The store commands a user can issue (add, edit, complete, delete,
restore, move, reorder, plus the selector commands that change which board
or tag filter is active). Each constructor carries the inputs of the
corresponding App.tsx handler, with `now` standing for `Date.now()`. -/
inductive Cmd where
  | add (quadrantId : String) (formData : TaskFormData) (now : Nat)
  | edit (taskId : String) (formData : TaskFormData)
  | complete (taskId : String) (now : Nat)
  | del (taskId : String)
  | restore (taskId : String)
  | dropMove (taskId sourceQuadrant targetQuadrantId : String) (targetIndex : Option Nat)
  | kbMove (taskId targetQuadrantId : String) (direction : Option MoveDir)
  | setFilter (tag : Option String)
  | setBoard (boardId : String)
  | newBoard (name : String) (now : Nat)
  | delBoard (boardId : String)

/-- Apply one command through the embedded handlers. -/
def applyCmd (s : AppState) : Cmd → AppState
  | Cmd.add q fd now => addTask s q fd now
  | Cmd.edit tid fd => updateTask s tid fd
  | Cmd.complete tid now => completeTask s tid now
  | Cmd.del tid => deleteTask s tid
  | Cmd.restore tid => restoreTask s tid
  | Cmd.dropMove tid src tgt ti => handleDrop s tid src tgt ti
  | Cmd.kbMove tid tgt dir => handleKeyboardMove s tid tgt dir
  | Cmd.setFilter tag => { s with activeTagFilter := tag }
  | Cmd.setBoard bid => { s with activeBoardId := bid }
  | Cmd.newBoard name now => createNewBoard s name now
  | Cmd.delBoard bid => deleteBoard s bid

/-- The state the app starts from when nothing is persisted: the default
board, no tasks, no filter. -/
def initState : AppState :=
  { boards := [⟨"1", "My Matrix"⟩]
    activeBoardId := "1"
    tasks := []
    activeTagFilter := Option.none
    errorMessages := [] }

/-- Run a command sequence from a state. -/
def runCmds (s : AppState) (cmds : List Cmd) : AppState := cmds.foldl applyCmd s

/-- A store state reachable from the initial state by some command
sequence. -/
def Reachable (s : AppState) : Prop := ∃ cmds, s = runCmds initState cmds

/-- The rendered key of a task annotated with its storage position: the pair
of its `order` and that position. Stable sorting by `order` renders the
partition exactly in ascending lexicographic key sequence, so the tie-break
documented by the spec (stable insertion position) is this second
component. -/
def renderKey (e : Nat × Task) : Nat × Nat := (e.2.order, e.1)

/-- Lexicographic boolean comparison of render keys. -/
def keyLE (a b : Nat × Nat) : Bool := decide (a.1 < b.1) || (a.1 == b.1 && decide (a.2 ≤ b.2))

/-- Strict lexicographic order on render keys; two tasks at the same
rendered position would have to share a key. -/
def keyLT (a b : Nat × Nat) : Prop := a.1 < b.1 ∨ (a.1 = b.1 ∧ a.2 < b.2)

/-- The displayed partition of one quadrant with the documented tie-break
made explicit: tasks annotated with their storage position, filtered as
`getTasksForQuadrant` filters, and sorted by the lexicographic render key.
Because storage positions are distinct, this is the sequence the stable
sort of `getTasksForQuadrant` renders. -/
def displayedWithTieBreak (s : AppState) (quadrantId : String) : List (Nat × Task) :=
  let annotated := s.tasks.enum.filter fun e =>
    e.2.boardId == s.activeBoardId && e.2.quadrantId == quadrantId && !e.2.completed &&
      (match s.activeTagFilter with
       | some tag => e.2.tags.contains tag
       | Option.none => true)
  stableSortBy (fun a b => keyLE (renderKey a) (renderKey b)) annotated

/-! ## Helper lemmas -/

theorem foldl_max_init_le : ∀ (l : List Nat) (acc : Nat), acc ≤ l.foldl Nat.max acc := by
  intro l
  induction l with
  | nil => intro acc; simp
  | cons b t ih =>
    intro acc
    simp only [List.foldl_cons]
    exact le_trans (Nat.le_max_left acc b) (ih (Nat.max acc b))

theorem le_foldl_max_of_mem :
    ∀ (l : List Nat) (acc a : Nat), a ∈ l → a ≤ l.foldl Nat.max acc := by
  intro l
  induction l with
  | nil => intro acc a h; simp at h
  | cons b t ih =>
    intro acc a h
    rcases List.mem_cons.mp h with h | h
    · subst h
      simp only [List.foldl_cons]
      exact le_trans (Nat.le_max_right acc a) (foldl_max_init_le t (Nat.max acc a))
    · exact ih (Nat.max acc b) a h

theorem contains_iff_mem {α : Type} [BEq α] [LawfulBEq α] {l : List α} {a : α} :
    l.contains a = true ↔ a ∈ l := by
  simp [List.contains, List.elem_iff]

theorem string_length_pos_iff (x : String) : 0 < x.length ↔ x ≠ "" := by
  cases x with
  | mk data =>
    constructor
    · intro h he
      rw [he] at h
      simp [String.length] at h
    · intro h
      rcases data with _ | ⟨c, cs⟩
      · exact absurd rfl h
      · simp [String.length]

/-- Every task of the displayed quadrant list has `order` strictly below the
value `getNextOrder` assigns next. -/
theorem order_lt_getNextOrder (s : AppState) (quadrantId : String) :
    ∀ u ∈ getTasksForQuadrant s quadrantId, u.order < getNextOrder s quadrantId := by
  intro u hu
  unfold getNextOrder
  have hne : (getTasksForQuadrant s quadrantId).isEmpty = false := by
    rcases h : getTasksForQuadrant s quadrantId with _ | ⟨a, l⟩
    · rw [h] at hu; simp at hu
    · simp
  rw [if_neg (by simp [hne])]
  have : u.order ≤ ((getTasksForQuadrant s quadrantId).map Task.order).foldl Nat.max 0 :=
    le_foldl_max_of_mem _ 0 u.order (List.mem_map_of_mem Task.order hu)
  omega

/-- Membership in the displayed quadrant list, unfolded to the source
predicate: a task appears exactly when it lives on the active board in the
given quadrant, is active, and carries the filtered tag when a tag filter is
set. -/
theorem mem_getTasksForQuadrant (s : AppState) (quadrantId : String) (u : Task) :
    u ∈ getTasksForQuadrant s quadrantId ↔
      u ∈ s.tasks ∧ u.boardId = s.activeBoardId ∧ u.quadrantId = quadrantId ∧
        u.completed = false ∧
        (∀ tag, s.activeTagFilter = some tag → tag ∈ u.tags) := by
  unfold getTasksForQuadrant
  rcases hf : s.activeTagFilter with _ | tag
  · simp only [mem_stableSortBy, List.mem_filter, Bool.and_eq_true, beq_iff_eq,
      Bool.not_eq_true']
    constructor
    · rintro ⟨hm, ⟨hb, hq⟩, hc⟩
      exact ⟨hm, hb, hq, hc, by intro t ht; simp [hf] at ht⟩
    · rintro ⟨hm, hb, hq, hc, _⟩
      exact ⟨hm, ⟨hb, hq⟩, hc⟩
  · simp only [mem_stableSortBy, List.mem_filter, Bool.and_eq_true, beq_iff_eq,
      Bool.not_eq_true']
    constructor
    · rintro ⟨⟨hm, ⟨hb, hq⟩, hc⟩, htag⟩
      refine ⟨hm, hb, hq, hc, ?_⟩
      intro t ht
      injection ht with hteq
      subst hteq
      rwa [contains_iff_mem] at htag
    · rintro ⟨hm, hb, hq, hc, htag⟩
      refine ⟨⟨hm, ⟨hb, hq⟩, hc⟩, ?_⟩
      rw [contains_iff_mem]
      exact htag tag rfl

/-- In a list whose keys are pairwise distinct, searching for the key of the
element at a position finds exactly that position. -/
theorem findIdx_of_key_nodup {α β : Type} [BEq β] [LawfulBEq β] (f : α → β) :
    ∀ (l : List α) (i : Nat) (t : α), (l.map f).Nodup → l.get? i = some t →
      l.findIdx? (fun u => f u == f t) = some i := by
  intro l
  induction l with
  | nil => intro i t _ h; simp at h
  | cons x xs ih =>
    intro i t hnd hget
    rw [List.map_cons, List.nodup_cons] at hnd
    cases i with
    | zero =>
      rw [List.get?_cons_zero, Option.some_inj] at hget
      subst hget
      simp [List.findIdx?_cons]
    | succ i =>
      rw [List.get?_cons_succ] at hget
      have hmem : t ∈ xs := List.get?_mem hget
      have hne : (f x == f t) = false := by
        rw [beq_eq_false_iff_ne]
        intro he
        exact hnd.1 (he ▸ List.mem_map_of_mem f hmem)
      rw [List.findIdx?_cons, hne]
      simp only [Bool.false_eq_true, if_false]
      rw [List.findIdx?_succ, ih i t hnd.2 hget]
      rfl

/-- Distinct task ids survive the quadrant filter and the stable sort. -/
theorem nodup_ids_getTasksForQuadrant (s : AppState) (quadrantId : String)
    (h : (s.tasks.map Task.id).Nodup) :
    ((getTasksForQuadrant s quadrantId).map Task.id).Nodup := by
  unfold getTasksForQuadrant
  have hperm := stableSortBy_perm (fun a b : Task => decide (a.order ≤ b.order))
  rcases hf : s.activeTagFilter with _ | tag
  · simp only []
    refine (((hperm _).map Task.id).nodup_iff).mpr ?_
    exact ((List.filter_sublist s.tasks).map Task.id).nodup h
  · simp only []
    refine (((hperm _).map Task.id).nodup_iff).mpr ?_
    exact (((List.filter_sublist _).trans (List.filter_sublist s.tasks)).map Task.id).nodup h

/-! ## C4: blank-title add commands are rejected without mutation -/

/-- C4: an add command whose title is empty or whitespace-only after
trimming stores a field-scoped validation error for the quadrant and leaves
the task collection (and the boards) completely unchanged. -/
theorem C4_blank_title_rejected (s : AppState) (quadrantId : String)
    (formData : TaskFormData) (now : Nat) (h : jsTrim formData.title = "") :
    (addTask s quadrantId formData now).tasks = s.tasks ∧
    (addTask s quadrantId formData now).errorMessages.lookup quadrantId =
      some "Task title is required" ∧
    (addTask s quadrantId formData now).boards = s.boards := by
  unfold addTask
  rw [h]
  simp [setMsg, List.lookup]

/-- C4 witness at the whitespace-only title of the spec example. -/
theorem C4_blank_title_rejected_witness :
    (addTask initState "Q1" ⟨"   ", Option.none, Option.none, "", Recurrence.none⟩ 7).tasks
        = initState.tasks ∧
    (addTask initState "Q1" ⟨"   ", Option.none, Option.none, "", Recurrence.none⟩
        7).errorMessages.lookup "Q1" = some "Task title is required" ∧
    (addTask initState "Q1" ⟨"   ", Option.none, Option.none, "", Recurrence.none⟩ 7).boards
        = initState.boards :=
  C4_blank_title_rejected initState "Q1" _ 7 (by decide)

/-! ## C8: tag parsing trims and drops empties but keeps duplicates -/

/-- C8 counterexample: the tag string "a, a" yields the task tag list
["a", "a"], in which the tag "a" appears twice, so the parsed tags are not
a de-duplicated set as the claim states. -/
theorem C8_counterexample :
    (addTask initState "Q1" ⟨"T", Option.none, Option.none, "a, a", Recurrence.none⟩
        99).tasks.map Task.tags = [["a", "a"]] ∧
    (["a", "a"] : List String).count "a" = 2 := by decide

/-- C8 (amended): a successful add appends one task whose tags are
`parseTags` of the form string: the trimmed entries of the comma-split
input, in order, with empty entries dropped and duplicates preserved. -/
theorem C8_parseTags_spec (s : AppState) (quadrantId : String)
    (formData : TaskFormData) (now : Nat) (h : jsTrim formData.title ≠ "") :
    (addTask s quadrantId formData now).tasks =
      s.tasks ++
        [{ id := toString now
           boardId := s.activeBoardId
           quadrantId := quadrantId
           title := jsTrim formData.title
           createdAt := now
           completed := false
           completedAt := Option.none
           order := getNextOrder s quadrantId
           dueDate := formData.dueDate
           reminderAt := formData.reminderAt
           tags := parseTags formData.tags
           recurrence := formData.recurrence }] ∧
    ∀ x, x ∈ parseTags formData.tags ↔
      (x ≠ "" ∧ ∃ raw ∈ jsSplitComma formData.tags, jsTrim raw = x) := by
  constructor
  · unfold addTask
    rw [if_neg h]
  · intro x
    unfold parseTags
    rw [List.mem_filter]
    simp only [List.mem_map, decide_eq_true_eq]
    constructor
    · rintro ⟨⟨raw, hraw, hx⟩, hlen⟩
      exact ⟨(string_length_pos_iff x).mp hlen, raw, hraw, hx⟩
    · rintro ⟨hne, raw, hraw, hx⟩
      exact ⟨⟨raw, hraw, hx⟩, (string_length_pos_iff x).mpr hne⟩

/-- C8 witness: tags " a ,, b " parse to ["a", "b"], and each parsed tag is
the trim of a raw entry. -/
theorem C8_parseTags_spec_witness :
    (addTask initState "Q1" ⟨"T", Option.none, Option.none, " a ,, b ", Recurrence.none⟩
        99).tasks.map Task.tags = [["a", "b"]] ∧
    ("a" ∈ parseTags " a ,, b " ↔
      ("a" ≠ "" ∧ ∃ raw ∈ jsSplitComma " a ,, b ", jsTrim raw = "a")) := by
  have h := C8_parseTags_spec initState "Q1"
    ⟨"T", Option.none, Option.none, " a ,, b ", Recurrence.none⟩ 99 (by decide)
  constructor
  · rw [h.1]; decide
  · exact h.2 "a"

/-! ## C3: recurrence spawns the next instance, but JS month arithmetic
overflows rather than clamps -/

theorem rollDays_of_le (fuel y m d : Nat) (hf : 1 ≤ fuel)
    (hd : d ≤ daysInMonth y m) : rollDays fuel y m d = ⟨y, m, d⟩ := by
  cases fuel with
  | zero => omega
  | succ f => simp [rollDays, hd]

/-- The concrete monthly task of the spec example: due 2024-01-31 (month
index 0 is January). -/
def exMonthlyTask : Task :=
  { id := "t1", boardId := "1", quadrantId := "Q1", title := "T", createdAt := 0,
    completed := false, completedAt := Option.none, order := 0,
    dueDate := some ⟨2024, 0, 31⟩, reminderAt := Option.none, tags := [],
    recurrence := Recurrence.monthly }

/-- A one-task store holding the monthly task due 2024-01-31. -/
def exMonthlyState : AppState :=
  { boards := [⟨"1", "My Matrix"⟩], activeBoardId := "1", tasks := [exMonthlyTask],
    activeTagFilter := Option.none, errorMessages := [] }

/-- C3 counterexample: completing the monthly-recurring task due 2024-01-31
spawns a task due 2024-03-02 (month index 2, day 2), not the claimed
2024-02-29: JS `setMonth` lets the day overflow normalise into March
instead of clamping to the end of February. -/
theorem C3_counterexample :
    (completeTask exMonthlyState "t1" 99).tasks.map Task.dueDate =
      [some ⟨2024, 0, 31⟩, some ⟨2024, 2, 2⟩] ∧
    (⟨2024, 2, 2⟩ : Date) ≠ ⟨2024, 1, 29⟩ := by decide

/-- C3 (amended): completing a recurring task with a present valid due date
marks it completed and appends exactly one clone whose due date is the
calendar successor for daily, seven calendar days later for weekly, and for
monthly the same day-of-month with the month index advanced by one —
overflowing days rolling into the following month (no clamping; the
December case always fits, since January is as long as December). -/
theorem C3_next_due_spec (s : AppState) (taskId : String) (now : Nat) (task : Task)
    (hfind : s.tasks.find? (fun t => t.id == taskId) = some task)
    (y m d : Nat) (hdue : task.dueDate = some ⟨y, m, d⟩)
    (hv : ValidDate ⟨y, m, d⟩)
    (hr : task.recurrence ≠ Recurrence.none) :
    (completeTask s taskId now).tasks =
      (s.tasks.map fun t =>
        if t.id == taskId then { t with completed := true, completedAt := some now }
        else t) ++
        [{ task with
            id := toString now
            completed := false
            completedAt := Option.none
            dueDate := some (nextDueDate task.recurrence ⟨y, m, d⟩)
            order := getNextOrder s task.quadrantId
            createdAt := now }] ∧
    (task.recurrence = Recurrence.daily →
      nextDueDate task.recurrence ⟨y, m, d⟩ = addCalendarDays ⟨y, m, d⟩ 1) ∧
    (task.recurrence = Recurrence.weekly →
      nextDueDate task.recurrence ⟨y, m, d⟩ = addCalendarDays ⟨y, m, d⟩ 7) ∧
    (task.recurrence = Recurrence.monthly →
      (m < 11 → d ≤ daysInMonth y (m + 1) →
        nextDueDate task.recurrence ⟨y, m, d⟩ = ⟨y, m + 1, d⟩) ∧
      (m = 11 → nextDueDate task.recurrence ⟨y, m, d⟩ = ⟨y + 1, 0, d⟩)) := by
  obtain ⟨hm0, hd10, hd20⟩ := hv
  have hm : m < 12 := hm0
  have hd1 : 1 ≤ d := hd10
  have hd2 : d ≤ daysInMonth y m := hd20
  refine ⟨?_, ?_, ?_, ?_⟩
  · cases hrec : task.recurrence with
    | none => exact absurd hrec hr
    | daily => simp [completeTask, hfind, hrec, hdue]
    | weekly => simp [completeTask, hfind, hrec, hdue]
    | monthly => simp [completeTask, hfind, hrec, hdue]
  · intro hrec
    rw [hrec]
    exact normDate_add y m d 1 hm hd1 hd2
  · intro hrec
    rw [hrec]
    exact normDate_add y m d 7 hm hd1 hd2
  · intro hrec
    rw [hrec]
    constructor
    · intro hm11 hdle
      show normDate y (m + 1) d = _
      unfold normDate
      rw [Nat.div_eq_of_lt (by omega), Nat.mod_eq_of_lt (by omega), Nat.add_zero]
      exact rollDays_of_le d y (m + 1) d (by omega) hdle
    · intro hm11
      subst hm11
      show normDate y 12 d = _
      unfold normDate
      norm_num
      have h31 : d ≤ daysInMonth (y + 1) 0 := by
        have h11 : daysInMonth y 11 = 31 := by simp [daysInMonth]
        have h0 : daysInMonth (y + 1) 0 = 31 := by simp [daysInMonth]
        omega
      exact rollDays_of_le d (y + 1) 0 d (by omega) h31

/-- C3 witness: the daily branch at the spec example, a daily task due
2024-01-31, spawns a task due 2024-02-01 = one calendar day later. -/
theorem C3_next_due_spec_witness :
    (completeTask { exMonthlyState with
        tasks := [{ exMonthlyTask with recurrence := Recurrence.daily }] } "t1" 99).tasks =
      [{ exMonthlyTask with
          recurrence := Recurrence.daily
          completed := true
          completedAt := some 99 },
       { exMonthlyTask with
          recurrence := Recurrence.daily
          id := "99"
          dueDate := some ⟨2024, 1, 1⟩
          order := 1
          createdAt := 99 }] ∧
    nextDueDate Recurrence.daily ⟨2024, 0, 31⟩ = addCalendarDays ⟨2024, 0, 31⟩ 1 := by
  have h := C3_next_due_spec
    { exMonthlyState with tasks := [{ exMonthlyTask with recurrence := Recurrence.daily }] }
    "t1" 99 { exMonthlyTask with recurrence := Recurrence.daily }
    (by decide) 2024 0 31 rfl ⟨by decide, by decide, by decide⟩ (by decide)
  constructor
  · rw [h.1]; decide
  · exact h.2.1 rfl

/-! ## C5: board deletion cascades and never leaves the board set empty -/

/-- C5: deleting a board removes exactly the tasks of that board; assuming
the app invariant that the active board exists, the board set stays
non-empty, the first remaining board takes over when the active board was
deleted (the default board being synthesised when none remain), and an
inactive deletion keeps the active selector. -/
theorem C5_deleteBoard_spec (s : AppState) (boardId : String)
    (hactive : ∃ b ∈ s.boards, b.id = s.activeBoardId) :
    (∀ task, task ∈ (deleteBoard s boardId).tasks ↔
      task ∈ s.tasks ∧ task.boardId ≠ boardId) ∧
    (deleteBoard s boardId).boards ≠ [] ∧
    (s.activeBoardId = boardId →
      (match s.boards.filter (fun b => b.id != boardId) with
       | [] => (deleteBoard s boardId).boards = [⟨"1", "My Matrix"⟩] ∧
           (deleteBoard s boardId).activeBoardId = "1"
       | b :: bs => (deleteBoard s boardId).boards = b :: bs ∧
           (deleteBoard s boardId).activeBoardId = b.id)) ∧
    (s.activeBoardId ≠ boardId →
      (deleteBoard s boardId).activeBoardId = s.activeBoardId ∧
      (deleteBoard s boardId).boards = s.boards.filter (fun b => b.id != boardId)) := by
  have htasks : ∀ task, task ∈ (deleteBoard s boardId).tasks ↔
      task ∈ s.tasks ∧ task.boardId ≠ boardId := by
    intro task
    unfold deleteBoard
    by_cases hab : s.activeBoardId = boardId
    · rw [if_pos hab]
      cases hfb : s.boards.filter (fun b => b.id != boardId) with
      | nil => simp [List.mem_filter]
      | cons b bs => simp [List.mem_filter]
    · rw [if_neg hab]
      simp [List.mem_filter]
  refine ⟨htasks, ?_, ?_, ?_⟩
  · unfold deleteBoard
    by_cases hab : s.activeBoardId = boardId
    · rw [if_pos hab]
      cases hfb : s.boards.filter (fun b => b.id != boardId) with
      | nil => simp
      | cons b bs => simp
    · rw [if_neg hab]
      obtain ⟨b0, hb0m, hb0id⟩ := hactive
      have : b0 ∈ s.boards.filter (fun b => b.id != boardId) := by
        rw [List.mem_filter]
        exact ⟨hb0m, by simp [hb0id, hab]⟩
      simp only []
      exact fun hnil => by rw [hnil] at this; simp at this
  · intro hab
    unfold deleteBoard
    rw [if_pos hab]
    cases hfb : s.boards.filter (fun b => b.id != boardId) with
    | nil => exact ⟨rfl, rfl⟩
    | cons b bs => exact ⟨rfl, rfl⟩
  · intro hab
    unfold deleteBoard
    rw [if_neg hab]
    exact ⟨rfl, rfl⟩

/-- A two-board store for the C5 witness. -/
def exTwoBoardState : AppState :=
  { boards := [⟨"1", "A"⟩, ⟨"2", "B"⟩], activeBoardId := "1",
    tasks := [{ exMonthlyTask with id := "x", boardId := "1" },
              { exMonthlyTask with id := "y", boardId := "2" }],
    activeTagFilter := Option.none, errorMessages := [] }

/-- C5 witness: deleting the active board "1" of the two-board store drops
its task, keeps the other, and activates board "2". -/
theorem C5_deleteBoard_spec_witness :
    ({ exMonthlyTask with id := "y", boardId := "2" } ∈ (deleteBoard exTwoBoardState "1").tasks ↔
      ({ exMonthlyTask with id := "y", boardId := "2" } ∈ exTwoBoardState.tasks ∧
        ("2" : String) ≠ "1")) ∧
    (deleteBoard exTwoBoardState "1").boards ≠ [] := by
  have h := C5_deleteBoard_spec exTwoBoardState "1" ⟨⟨"1", "A"⟩, by decide, rfl⟩
  exact ⟨h.1 _, h.2.1⟩

/-! ## C10: the append order is computed over the filtered display list -/

/-- An active tagged task with order 0. -/
def exFilterTaskA : Task :=
  { exMonthlyTask with
      id := "fa"
      dueDate := Option.none
      recurrence := Recurrence.none
      tags := ["a"]
      order := 0 }

/-- An active untagged task with order 5 in the same quadrant. -/
def exFilterTaskB : Task :=
  { exMonthlyTask with
      id := "fb"
      dueDate := Option.none
      recurrence := Recurrence.none
      tags := []
      order := 5 }

/-- A store with the tag filter "a" active over those two tasks. -/
def exFilterState : AppState :=
  { boards := [⟨"1", "My Matrix"⟩], activeBoardId := "1",
    tasks := [exFilterTaskA, exFilterTaskB], activeTagFilter := some "a",
    errorMessages := [] }

/-- C10: `getNextOrder` bounds only the currently displayed quadrant list,
which under an active tag filter holds exactly the active tasks of the
active board carrying that tag; consequently, in the concrete filtered
store, a newly added task receives order 1, at most the order 5 of the
existing active untagged task of the same quadrant. -/
theorem C10_append_order_under_filter :
    (∀ (s : AppState) (q : String), ∀ u ∈ getTasksForQuadrant s q,
      u.order < getNextOrder s q) ∧
    (∀ (s : AppState) (q tag : String) (u : Task), s.activeTagFilter = some tag →
      (u ∈ getTasksForQuadrant s q ↔
        u ∈ s.tasks ∧ u.boardId = s.activeBoardId ∧ u.quadrantId = q ∧
          u.completed = false ∧ tag ∈ u.tags)) ∧
    ((addTask exFilterState "Q1"
        ⟨"N", Option.none, Option.none, "", Recurrence.none⟩ 99).tasks.map Task.order
      = [0, 5, 1] ∧
      getNextOrder exFilterState "Q1" = 1 ∧
      exFilterTaskB ∈ exFilterState.tasks ∧ exFilterTaskB.completed = false ∧
      exFilterTaskB.tags = [] ∧ exFilterTaskB.quadrantId = "Q1" ∧
      exFilterTaskB.boardId = exFilterState.activeBoardId ∧
      (1 : Nat) ≤ exFilterTaskB.order) := by
  refine ⟨order_lt_getNextOrder, ?_, by decide⟩
  intro s q tag u hf
  rw [mem_getTasksForQuadrant]
  constructor
  · rintro ⟨hm, hb, hq, hc, htag⟩
    exact ⟨hm, hb, hq, hc, htag tag hf⟩
  · rintro ⟨hm, hb, hq, hc, htag⟩
    refine ⟨hm, hb, hq, hc, ?_⟩
    intro t ht
    rw [hf] at ht
    injection ht with hteq
    subst hteq
    exact htag

/-- C10 witness: the displayed-list bound applied at the filtered store. -/
theorem C10_append_order_under_filter_witness :
    exFilterTaskA.order < getNextOrder exFilterState "Q1" ∧
    (exFilterTaskA ∈ getTasksForQuadrant exFilterState "Q1" ↔
      exFilterTaskA ∈ exFilterState.tasks ∧
        exFilterTaskA.boardId = exFilterState.activeBoardId ∧
        exFilterTaskA.quadrantId = "Q1" ∧ exFilterTaskA.completed = false ∧
        "a" ∈ exFilterTaskA.tags) :=
  ⟨C10_append_order_under_filter.1 exFilterState "Q1" exFilterTaskA (by decide),
   C10_append_order_under_filter.2.1 exFilterState "Q1" "a" exFilterTaskA rfl⟩

/-! ## C6: restore appends — but over the filtered display list -/

/-- A completed task of the filtered store. -/
def exRestoreTask : Task :=
  { exMonthlyTask with
      id := "t"
      dueDate := Option.none
      recurrence := Recurrence.none
      tags := []
      completed := true
      completedAt := some 10 }

/-- The filtered store with the completed task alongside the two active
ones. -/
def exRestoreState : AppState :=
  { exFilterState with tasks := [exFilterTaskA, exFilterTaskB, exRestoreTask] }

/-- C6 counterexample: with the tag filter "a" active, restoring the
completed task assigns it order 1 (max over the displayed, filtered list
plus one), yet the untagged active task of the same quadrant holds order 5,
so the restored task does not re-enter as the last active task of its
quadrant. -/
theorem C6_counterexample :
    ((restoreTask exRestoreState "t").tasks.map fun u => (u.id, u.completed, u.order)) =
      [("fa", false, 0), ("fb", false, 5), ("t", false, 1)] ∧
    (1 : Nat) < 5 := by decide

/-- C6 (amended): when no tag filter is active and the completed task lives
on the active board, restore clears the completed flag and timestamp, keeps
every other field including boardId and quadrantId, and assigns a fresh
order strictly greater than the order of every other active task of that
quadrant on the board — so the task re-enters as the last active task of
its original quadrant. -/
theorem C6_restore_no_filter (s : AppState) (taskId : String) (task : Task)
    (hfind : s.tasks.find? (fun t => t.id == taskId) = some task)
    (hfilter : s.activeTagFilter = Option.none)
    (hboard : task.boardId = s.activeBoardId)
    (hcomp : task.completed = true) :
    (restoreTask s taskId).tasks = (s.tasks.map fun t =>
      if t.id == taskId then
        { t with
            completed := false
            completedAt := Option.none
            order := getNextOrder s task.quadrantId }
      else t) ∧
    ∀ u ∈ s.tasks, u.id ≠ taskId → u.boardId = s.activeBoardId →
      u.quadrantId = task.quadrantId → u.completed = false →
      u.order < getNextOrder s task.quadrantId := by
  constructor
  · simp [restoreTask, hfind]
  · intro u hu hid hb hq hc
    apply order_lt_getNextOrder
    rw [mem_getTasksForQuadrant]
    refine ⟨hu, hb, hq, hc, ?_⟩
    intro tag ht
    rw [hfilter] at ht
    cases ht

/-- The unfiltered store for the C6 witness: one active task with order 0
and the completed task. -/
def exRestorePlainState : AppState :=
  { exFilterState with
      tasks := [exFilterTaskB, exRestoreTask]
      activeTagFilter := Option.none }

/-- C6 witness: in the unfiltered store the restored task receives order 6,
strictly above the one active task with order 5. -/
theorem C6_restore_no_filter_witness :
    (restoreTask exRestorePlainState "t").tasks = (exRestorePlainState.tasks.map fun t =>
      if t.id == "t" then
        { t with
            completed := false
            completedAt := Option.none
            order := getNextOrder exRestorePlainState exRestoreTask.quadrantId }
      else t) ∧
    exFilterTaskB.order < getNextOrder exRestorePlainState exRestoreTask.quadrantId := by
  have h := C6_restore_no_filter exRestorePlainState "t" exRestoreTask
    (by decide) rfl rfl rfl
  exact ⟨h.1, h.2 exFilterTaskB (by decide) (by decide) rfl rfl rfl⟩

/-! ## C7: search scans everything, but a blank query returns nothing -/

/-- A one-task store whose task title contains a space. -/
def exBlankQueryState : AppState :=
  { boards := [⟨"1", "My Matrix"⟩], activeBoardId := "1",
    tasks := [{ exMonthlyTask with
                  id := "s1"
                  title := "a b"
                  dueDate := Option.none
                  recurrence := Recurrence.none }],
    activeTagFilter := Option.none, errorMessages := [] }

/-- C7 counterexample: for the whitespace query " ", the title "a b"
contains the query as a substring, yet the search returns no results,
because a query with blank trim is short-circuited to the empty result
list; so search does not return exactly the matching tasks for every query
text. -/
theorem C7_counterexample :
    searchCompute exBlankQueryState " " = [] ∧
    jsIncludes (jsToLower "a b") (jsToLower " ") = true := by decide

theorem filterMap_guard_map {α β : Type} (p : α → Bool) (g : α → β) (h : β → α)
    (hgh : ∀ a, h (g a) = a) :
    ∀ l : List α,
      (l.filterMap fun a => if p a then some (g a) else Option.none).map h =
        l.filter p := by
  intro l
  induction l with
  | nil => rfl
  | cons a as ih =>
    by_cases hp : p a = true
    · simp [List.filterMap_cons, hp, ih, hgh]
    · simp [List.filterMap_cons, hp, ih, Bool.of_not_eq_true hp]

theorem mem_filterMap_guard {α β : Type} (p : α → Bool) (g : α → β) (l : List α)
    (r : β) (hr : r ∈ l.filterMap fun a => if p a then some (g a) else Option.none) :
    ∃ a ∈ l, p a = true ∧ r = g a := by
  rw [List.mem_filterMap] at hr
  obtain ⟨a, ha, hfa⟩ := hr
  by_cases hp : p a = true
  · rw [if_pos hp, Option.some_inj] at hfa
    exact ⟨a, ha, hp, hfa.symm⟩
  · rw [if_neg hp] at hfa
    cases hfa

/-- C7 (amended): for every query whose trim is non-blank, search returns
exactly the tasks whose lower-cased title or some lower-cased tag contains
the lower-cased query, drawn from the full task collection of every board,
active and completed alike, in underlying storage order; each result
carries the archived flag of its task and the resolved board and quadrant
names. -/
theorem C7_search_matches (s : AppState) (q : String) (hq : jsTrim q ≠ "") :
    (searchCompute s q).map SearchResult.task =
      s.tasks.filter (fun task =>
        jsIncludes (jsToLower task.title) (jsToLower q)
          || task.tags.any fun tag => jsIncludes (jsToLower tag) (jsToLower q)) ∧
    ∀ r ∈ searchCompute s q,
      r.isArchived = r.task.completed ∧
      r.boardName = (match s.boards.find? (fun b => b.id == r.task.boardId) with
        | some b => b.name
        | Option.none => "Unknown Board") ∧
      r.quadrantName = (match quadrantsList.find? (fun p => p.1 == r.task.quadrantId) with
        | some p => p.2
        | Option.none => r.task.quadrantId) := by
  unfold searchCompute
  rw [if_neg hq]
  constructor
  · exact filterMap_guard_map
      (fun task => jsIncludes (jsToLower task.title) (jsToLower q)
        || task.tags.any fun tag => jsIncludes (jsToLower tag) (jsToLower q))
      (fun task =>
        { task := task
          boardName :=
            match s.boards.find? (fun b => b.id == task.boardId) with
            | some b => b.name
            | Option.none => "Unknown Board"
          quadrantName :=
            match quadrantsList.find? (fun p => p.1 == task.quadrantId) with
            | some p => p.2
            | Option.none => task.quadrantId
          isArchived := task.completed })
      SearchResult.task (fun a => rfl) s.tasks
  · intro r hr
    obtain ⟨a, _, _, hra⟩ := mem_filterMap_guard
      (fun task => jsIncludes (jsToLower task.title) (jsToLower q)
        || task.tags.any fun tag => jsIncludes (jsToLower tag) (jsToLower q))
      (fun task =>
        { task := task
          boardName :=
            match s.boards.find? (fun b => b.id == task.boardId) with
            | some b => b.name
            | Option.none => "Unknown Board"
          quadrantName :=
            match quadrantsList.find? (fun p => p.1 == task.quadrantId) with
            | some p => p.2
            | Option.none => task.quadrantId
          isArchived := task.completed })
      s.tasks r hr
    subst hra
    exact ⟨rfl, rfl, rfl⟩

/-- The active task titled "Project plan" of the spec search example. -/
def exSearchTask1 : Task :=
  { exMonthlyTask with
      id := "p1"
      title := "Project plan"
      dueDate := Option.none
      recurrence := Recurrence.none }

/-- The archived task tagged "project" on another board. -/
def exSearchTask2 : Task :=
  { exMonthlyTask with
      id := "p2"
      boardId := "2"
      quadrantId := "Q2"
      title := "x"
      dueDate := Option.none
      recurrence := Recurrence.none
      tags := ["project"]
      completed := true
      completedAt := some 5 }

/-- The two-board store of the spec search example. -/
def exSearchState : AppState :=
  { boards := [⟨"1", "BoardA"⟩, ⟨"2", "BoardB"⟩], activeBoardId := "1",
    tasks := [exSearchTask1, exSearchTask2],
    activeTagFilter := Option.none, errorMessages := [] }

/-- C7 witness: the query "proj" finds both the task titled "Project plan"
and the archived task tagged "project", across boards. -/
theorem C7_search_matches_witness :
    (searchCompute exSearchState "proj").map SearchResult.task =
      [exSearchTask1, exSearchTask2] := by
  have h := C7_search_matches exSearchState "proj" (by decide)
  rw [h.1]
  decide

/-! ## C9: keyboard reorder swaps with the displayed neighbour -/

/-- An active tagged task with order 0 for the reorder examples. -/
def exSwapA : Task :=
  { exMonthlyTask with
      id := "sa"
      dueDate := Option.none
      recurrence := Recurrence.none
      tags := ["x"]
      order := 0 }

/-- An active untagged task with order 1. -/
def exSwapB : Task :=
  { exMonthlyTask with
      id := "sb"
      dueDate := Option.none
      recurrence := Recurrence.none
      tags := []
      order := 1 }

/-- An active tagged task with order 2. -/
def exSwapC : Task :=
  { exMonthlyTask with
      id := "sc"
      dueDate := Option.none
      recurrence := Recurrence.none
      tags := ["x"]
      order := 2 }

/-- The three-task store with the tag filter "x" active: the displayed Q1
list is [sa(0), sc(2)], while the full active order-sorted list is
[sa(0), sb(1), sc(2)]. -/
def exSwapState : AppState :=
  { boards := [⟨"1", "My Matrix"⟩], activeBoardId := "1",
    tasks := [exSwapA, exSwapB, exSwapC], activeTagFilter := some "x",
    errorMessages := [] }

/-- C9 counterexample: with the tag filter "x" active, moving task sc up
swaps its order with sa — its neighbour in the filtered display list — and
leaves sb untouched, although sb (order 1) is the neighbour above sc in the
order-sorted active list of the quadrant, so the final orders differ from
the swap the claim prescribes ([sa 0, sb 2, sc 1]). -/
theorem C9_counterexample :
    ((handleKeyboardMove exSwapState "sc" "Q1" (some MoveDir.up)).tasks.map
        fun u => (u.id, u.order)) = [("sa", 2), ("sb", 1), ("sc", 0)] ∧
    ([("sa", 2), ("sb", 1), ("sc", 0)] : List (String × Nat)) ≠
      [("sa", 0), ("sb", 2), ("sc", 1)] := by decide

/-- C9 (amended): for a task at position i of its quadrant's displayed list
(the order-sorted active tasks of the active board, restricted to the tag
filter when one is set — without a filter this is exactly the order-sorted
active list), moving up swaps only the order values of the task and of the
displayed entry at i-1, moving down those of the task and of the displayed
entry at i+1, everything else unchanged; at the top (i = 0, up) or bottom
(no entry at i+1, down) the command is a no-op. -/
theorem C9_swap_displayed (s : AppState) (taskId q0 : String) (task : Task)
    (hfind : s.tasks.find? (fun t => t.id == taskId) = some task)
    (hnodup : (s.tasks.map Task.id).Nodup)
    (i : Nat)
    (hi : (getTasksForQuadrant s task.quadrantId).get? i = some task) :
    (i = 0 → handleKeyboardMove s taskId q0 (some MoveDir.up) = s) ∧
    (∀ j nb, i = j + 1 →
      (getTasksForQuadrant s task.quadrantId).get? j = some nb →
      (handleKeyboardMove s taskId q0 (some MoveDir.up)).tasks =
        s.tasks.map fun t =>
          if t.id == taskId then { t with order := nb.order }
          else if t.id == nb.id then { t with order := task.order }
          else t) ∧
    ((getTasksForQuadrant s task.quadrantId).get? (i + 1) = Option.none →
      handleKeyboardMove s taskId q0 (some MoveDir.down) = s) ∧
    (∀ nb, (getTasksForQuadrant s task.quadrantId).get? (i + 1) = some nb →
      (handleKeyboardMove s taskId q0 (some MoveDir.down)).tasks =
        s.tasks.map fun t =>
          if t.id == taskId then { t with order := nb.order }
          else if t.id == nb.id then { t with order := task.order }
          else t) := by
  have htid : task.id = taskId := by
    have hp := List.find?_some hfind
    simpa using hp
  have hnodup2 := nodup_ids_getTasksForQuadrant s task.quadrantId hnodup
  have hidq := findIdx_of_key_nodup Task.id (getTasksForQuadrant s task.quadrantId)
    i task hnodup2 hi
  rw [htid] at hidq
  have hlen : i < (getTasksForQuadrant s task.quadrantId).length := by
    obtain ⟨h, _⟩ := List.get?_eq_some.mp hi
    exact h
  refine ⟨?_, ?_, ?_, ?_⟩
  · intro hi0
    subst hi0
    simp only [handleKeyboardMove, hfind, hidq]
    rw [if_neg (by omega)]
  · intro j nb hij hj
    subst hij
    simp only [handleKeyboardMove, hfind, hidq]
    rw [if_pos (by constructor <;> omega)]
    have htn : (((j + 1 : Nat) : Int) - 1).toNat = j := by omega
    rw [htn, hj]
  · intro hnone
    have hge : (getTasksForQuadrant s task.quadrantId).length ≤ i + 1 :=
      List.get?_eq_none.mp hnone
    simp only [handleKeyboardMove, hfind, hidq]
    rw [if_neg (by omega)]
  · intro nb hj
    have hlt : i + 1 < (getTasksForQuadrant s task.quadrantId).length := by
      obtain ⟨h, _⟩ := List.get?_eq_some.mp hj
      exact h
    simp only [handleKeyboardMove, hfind, hidq]
    rw [if_pos (by constructor <;> omega)]
    have htn : (((i : Nat) : Int) + 1).toNat = i + 1 := by omega
    rw [htn, hj]

/-- The same three tasks with no tag filter: the displayed Q1 list is the
full order-sorted active list [sa(0), sb(1), sc(2)]. -/
def exSwapPlainState : AppState :=
  { exSwapState with activeTagFilter := Option.none }

/-- C9 witness: without a filter, moving sb (position 1) up swaps its order
with sa, and moving sc (last position) down is a no-op. -/
theorem C9_swap_displayed_witness :
    ((handleKeyboardMove exSwapPlainState "sb" "Q1" (some MoveDir.up)).tasks.map
        fun u => (u.id, u.order)) = [("sa", 1), ("sb", 0), ("sc", 2)] ∧
    handleKeyboardMove exSwapPlainState "sc" "Q1" (some MoveDir.down) =
      exSwapPlainState := by
  have h := C9_swap_displayed exSwapPlainState "sb" "Q1" exSwapB
    (by decide) (by decide) 1 (by decide)
  have h2 := h.2.1 0 exSwapA rfl (by decide)
  have h3 := C9_swap_displayed exSwapPlainState "sc" "Q1" exSwapC
    (by decide) (by decide) 2 (by decide)
  constructor
  · rw [h2]; decide
  · exact h3.2.2.1 (by decide)

/-! ## C2: in-range drops adopt the target order, shift the rest up, and
compact the source quadrant -/

theorem filter_map_of_pred_eq {α : Type} (f : α → α) (p : α → Bool) (l : List α)
    (h : ∀ a ∈ l, p (f a) = p a ∧ (p a = true → f a = a)) :
    (l.map f).filter p = l.filter p := by
  induction l with
  | nil => rfl
  | cons a as ih =>
    simp only [List.map_cons, List.filter_cons]
    obtain ⟨h1, h2⟩ := h a (List.mem_cons_self a as)
    have ihs := ih fun a ha => h a (List.mem_cons_of_mem _ ha)
    by_cases hp : p a = true
    · rw [h1, hp, h2 hp, ihs]
    · have hpf : p a = false := Bool.eq_false_iff.mpr hp
      simp [h1, hpf, ihs]

theorem find?_key_of_mem {l : List Task} (hnd : (l.map Task.id).Nodup) (v : Task)
    (hv : v ∈ l) : l.find? (fun u => u.id == v.id) = some v := by
  induction l with
  | nil => simp at hv
  | cons x xs ih =>
    rw [List.map_cons, List.nodup_cons] at hnd
    rcases List.mem_cons.mp hv with hv | hv
    · subst hv
      rw [List.find?_cons_of_pos _ (by simp)]
    · have hne : (x.id == v.id) = false := by
        rw [beq_eq_false_iff_ne]
        intro he
        exact hnd.1 (he ▸ List.mem_map_of_mem Task.id hv)
      rw [List.find?_cons_of_neg _ (by simp [hne]), ih hnd.2 hv]

/-- The per-task effect of an in-range drop into a different quadrant, used
to state C2: the moved task adopts the target quadrant and the displayed
order `ord0`; every other active target-quadrant task of the active board
with order at least `ord0` shifts up by one; every remaining active
source-quadrant task takes its position in the order-sorted remaining
source list as its new order; everything else is untouched. -/
def dropSpecFn (s : AppState) (taskId targetQuadrantId sourceQuadrant : String)
    (ord0 : Nat) (u : Task) : Task :=
  if u.id == taskId then { u with quadrantId := targetQuadrantId, order := ord0 }
  else if u.quadrantId == targetQuadrantId && !u.completed
      && u.boardId == s.activeBoardId && decide (ord0 ≤ u.order) then
    { u with order := u.order + 1 }
  else if u.quadrantId == sourceQuadrant && !u.completed
      && u.boardId == s.activeBoardId then
    match (srcRemaining s taskId sourceQuadrant).findIdx? (fun w => w.id == u.id) with
    | some p => { u with order := p }
    | Option.none => u
  else u

theorem dropSpecFn_id (s : AppState) (taskId targetQuadrantId sourceQuadrant : String)
    (ord0 : Nat) (u : Task) :
    (dropSpecFn s taskId targetQuadrantId sourceQuadrant ord0 u).id = u.id := by
  unfold dropSpecFn
  split
  · rfl
  · split
    · rfl
    · split
      · split <;> rfl
      · rfl

theorem find?_map_id_key (F : Task → Task) (hF : ∀ u, (F u).id = u.id) :
    ∀ (l : List Task) (key : String),
      (l.map F).find? (fun u => u.id == key) =
        (l.find? (fun u => u.id == key)).map F := by
  intro l key
  induction l with
  | nil => rfl
  | cons a as ih =>
    simp only [List.map_cons, List.find?_cons, hF a]
    cases h : (a.id == key) with
    | true => rfl
    | false => exact ih

theorem dropShift_filter_srcPred (s : AppState) (taskId srcQ tgt : String)
    (ti : Option Nat) (n0 : Nat) (hneq : srcQ ≠ tgt) :
    (dropShift s taskId tgt ti n0).filter (srcPred s taskId srcQ) =
      s.tasks.filter (srcPred s taskId srcQ) := by
  unfold dropShift
  apply filter_map_of_pred_eq
  intro a _
  constructor
  · by_cases hid : (a.id == taskId) = true
    · rw [if_pos hid]
      simp [srcPred, bne, hid]
    · rw [if_neg hid]
      by_cases hc2 : (a.quadrantId == tgt && !a.completed
          && a.boardId == s.activeBoardId && ti.isSome && decide (n0 ≤ a.order)) = true
      · rw [if_pos hc2]
        simp [srcPred]
      · rw [if_neg hc2]
  · intro hp
    simp only [srcPred, Bool.and_eq_true, beq_iff_eq, bne_iff_ne,
      Bool.not_eq_true'] at hp
    obtain ⟨⟨⟨hq, hcm⟩, hbd⟩, hid⟩ := hp
    have hqf : (a.quadrantId == tgt) = false := by
      rw [beq_eq_false_iff_ne, hq]
      exact hneq
    rw [if_neg (by simp [hid]), if_neg (by simp [hqf])]

/-- C2: dropping an active task of the active board into a different
quadrant at an in-range display index: the moved task adopts the order of
the task displayed at that index, every other active task of the target
quadrant on the board with order at least that value is incremented by one,
tasks of other boards, quadrants or the archive are untouched, and each
remaining active source-quadrant task is renumbered to its position in the
order-sorted remaining source list, i.e. densely 0..n-1 along the previous
relative sequence (conclusion two exhibits the renumbered task for every
position of that list). -/
theorem C2_handleDrop_spec (s : AppState) (taskId targetQuadrantId : String) (t : Task)
    (i : Nat)
    (hfind : s.tasks.find? (fun u => u.id == taskId) = some t)
    (hnodup : (s.tasks.map Task.id).Nodup)
    (hact : t.completed = false)
    (hb : t.boardId = s.activeBoardId)
    (hneq : t.quadrantId ≠ targetQuadrantId)
    (hi : i < (getTasksForQuadrant s targetQuadrantId).length) :
    (handleDrop s taskId t.quadrantId targetQuadrantId (some i)).tasks =
      s.tasks.map (dropSpecFn s taskId targetQuadrantId t.quadrantId
        ((getTasksForQuadrant s targetQuadrantId).get ⟨i, hi⟩).order) ∧
    ∀ (p : Nat) (hp : p < (srcRemaining s taskId t.quadrantId).length),
      (handleDrop s taskId t.quadrantId targetQuadrantId (some i)).tasks.find?
          (fun u => u.id == ((srcRemaining s taskId t.quadrantId).get ⟨p, hp⟩).id) =
        some { (srcRemaining s taskId t.quadrantId).get ⟨p, hp⟩ with order := p } := by
  have hno : dropNewOrder s targetQuadrantId (some i) =
      ((getTasksForQuadrant s targetQuadrantId).get ⟨i, hi⟩).order := by
    unfold dropNewOrder
    exact dif_pos hi
  have hplumb : (handleDrop s taskId t.quadrantId targetQuadrantId (some i)).tasks =
      dropCompact s taskId t.quadrantId
        (dropShift s taskId targetQuadrantId (some i)
          (dropNewOrder s targetQuadrantId (some i))) := by
    unfold handleDrop
    rw [hfind]
  set ord0 := ((getTasksForQuadrant s targetQuadrantId).get ⟨i, hi⟩).order with hord
  have hA : (handleDrop s taskId t.quadrantId targetQuadrantId (some i)).tasks =
      s.tasks.map (dropSpecFn s taskId targetQuadrantId t.quadrantId ord0) := by
    rw [hplumb, hno]
    unfold dropCompact
    rw [dropShift_filter_srcPred s taskId t.quadrantId targetQuadrantId (some i)
      ord0 hneq]
    unfold dropShift
    rw [List.map_map]
    apply List.map_congr_left
    intro u _
    simp only [Function.comp_apply]
    unfold dropSpecFn
    by_cases hid : (u.id == taskId) = true
    · rw [if_pos hid, if_pos hid]
      have hqf : (targetQuadrantId == t.quadrantId) = false :=
        beq_eq_false_iff_ne.mpr (Ne.symm hneq)
      rw [if_neg (by simp [hqf])]
    · rw [if_neg hid, if_neg hid]
      have hcondeq : (u.quadrantId == targetQuadrantId && !u.completed
          && u.boardId == s.activeBoardId && (some i : Option Nat).isSome
          && decide (ord0 ≤ u.order)) =
          (u.quadrantId == targetQuadrantId && !u.completed
            && u.boardId == s.activeBoardId && decide (ord0 ≤ u.order)) := by
        simp
      rw [hcondeq]
      by_cases hc2 : (u.quadrantId == targetQuadrantId && !u.completed
          && u.boardId == s.activeBoardId && decide (ord0 ≤ u.order)) = true
      · rw [if_pos hc2, if_pos hc2]
        have hc2e := hc2
        simp only [Bool.and_eq_true] at hc2e
        obtain ⟨⟨⟨hq, _⟩, _⟩, _⟩ := hc2e
        have hqs : (u.quadrantId == t.quadrantId) = false := by
          rw [beq_iff_eq] at hq
          rw [beq_eq_false_iff_ne, hq]
          exact Ne.symm hneq
        rw [if_neg (by simp [hqs])]
      · rw [if_neg hc2, if_neg hc2]
        simp only [srcRemaining]
  refine ⟨hA, ?_⟩
  have hBnodup : ((srcRemaining s taskId t.quadrantId).map Task.id).Nodup := by
    unfold srcRemaining
    refine ((stableSortBy_perm _ _).map Task.id).nodup_iff.mpr ?_
    exact ((List.filter_sublist s.tasks).map Task.id).nodup hnodup
  intro p hp
  have hvmemL : (srcRemaining s taskId t.quadrantId).get ⟨p, hp⟩ ∈
      srcRemaining s taskId t.quadrantId := List.get_mem _ _ hp
  have hvfilter : (srcRemaining s taskId t.quadrantId).get ⟨p, hp⟩ ∈
      s.tasks.filter (srcPred s taskId t.quadrantId) := by
    unfold srcRemaining at hvmemL
    rw [mem_stableSortBy] at hvmemL
    exact hvmemL
  have hvmem : (srcRemaining s taskId t.quadrantId).get ⟨p, hp⟩ ∈ s.tasks :=
    (List.mem_filter.mp hvfilter).1
  have hvpred := (List.mem_filter.mp hvfilter).2
  simp only [srcPred, Bool.and_eq_true, beq_iff_eq, bne_iff_ne,
    Bool.not_eq_true'] at hvpred
  obtain ⟨⟨⟨hvq, hvc⟩, hvb⟩, hvid⟩ := hvpred
  have hvqE : (srcRemaining s taskId t.quadrantId)[p].quadrantId = t.quadrantId := hvq
  have hvcE : (srcRemaining s taskId t.quadrantId)[p].completed = false := hvc
  have hvbE : (srcRemaining s taskId t.quadrantId)[p].boardId = s.activeBoardId := hvb
  have hvidE : (srcRemaining s taskId t.quadrantId)[p].id ≠ taskId := hvid
  rw [hA]
  rw [find?_map_id_key (dropSpecFn s taskId targetQuadrantId t.quadrantId ord0)
    (dropSpecFn_id s taskId targetQuadrantId t.quadrantId ord0) s.tasks
    ((srcRemaining s taskId t.quadrantId).get ⟨p, hp⟩).id]
  rw [find?_key_of_mem hnodup _ hvmem]
  rw [Option.map_some']
  congr 1
  unfold dropSpecFn
  rw [if_neg (by simp [hvidE])]
  have hqsE : ((srcRemaining s taskId t.quadrantId)[p].quadrantId
      == targetQuadrantId) = false := by
    rw [beq_eq_false_iff_ne, hvqE]
    exact hneq
  rw [if_neg (by simp [hqsE]), if_pos (by simp [hvqE, hvcE, hvbE])]
  rw [findIdx_of_key_nodup Task.id (srcRemaining s taskId t.quadrantId) p
    ((srcRemaining s taskId t.quadrantId).get ⟨p, hp⟩) hBnodup
    (List.get?_eq_get hp)]

/-- Source-quadrant task A with order 0 for the C2 example. -/
def exDropA : Task :=
  { exMonthlyTask with
      id := "A"
      dueDate := Option.none
      recurrence := Recurrence.none
      tags := [] }

/-- Target-quadrant task B with order 0. -/
def exDropB : Task :=
  { exMonthlyTask with
      id := "B"
      quadrantId := "Q2"
      dueDate := Option.none
      recurrence := Recurrence.none
      tags := [] }

/-- Target-quadrant task C with order 1. -/
def exDropC : Task :=
  { exMonthlyTask with
      id := "C"
      quadrantId := "Q2"
      order := 1
      dueDate := Option.none
      recurrence := Recurrence.none
      tags := [] }

/-- A second source-quadrant task D with order 1, to exercise compaction. -/
def exDropD : Task :=
  { exMonthlyTask with
      id := "D"
      order := 1
      dueDate := Option.none
      recurrence := Recurrence.none
      tags := [] }

/-- The store of the spec move example: source Q1 holds [A(0), D(1)], the
target Q2 holds [B(0), C(1)]. -/
def exDropState : AppState :=
  { boards := [⟨"1", "My Matrix"⟩], activeBoardId := "1",
    tasks := [exDropA, exDropB, exDropC, exDropD],
    activeTagFilter := Option.none, errorMessages := [] }

/-- C2 witness: moving A (order 0) into Q2 = [B(0), C(1)] at index 1 yields
B(0), A(1), C(2) and compacts the source quadrant, D taking order 0. -/
theorem C2_handleDrop_spec_witness :
    ((handleDrop exDropState "A" "Q1" "Q2" (some 1)).tasks.map
        fun u => (u.quadrantId, u.order)) =
      [("Q2", 1), ("Q2", 0), ("Q2", 2), ("Q1", 0)] ∧
    (handleDrop exDropState "A" "Q1" "Q2" (some 1)).tasks.find?
        (fun u => u.id ==
          ((srcRemaining exDropState "A" "Q1").get ⟨0, by decide⟩).id) =
      some { (srcRemaining exDropState "A" "Q1").get ⟨0, by decide⟩ with
        order := 0 } := by
  have h := C2_handleDrop_spec exDropState "A" "Q2" exDropA 1
    (by decide) (by decide) rfl rfl (by decide) (by decide)
  constructor
  · have h1 := h.1
    rw [show exDropA.quadrantId = "Q1" from rfl] at h1
    rw [h1]
    decide
  · exact h.2 0 (by decide)

/-! ## C1: the rendered partition never places two tasks at one position -/

theorem pairwise_fst_lt_enum {α : Type} (l : List α) :
    l.enum.Pairwise fun a b => a.1 < b.1 := by
  have h : List.Pairwise (fun a b => a < b) (l.enum.map Prod.fst) := by
    rw [List.enum_map_fst]
    exact List.pairwise_lt_range l.length
  rwa [List.pairwise_map] at h

theorem keyLE_total (a b : Nat × Nat) : keyLE a b || keyLE b a := by
  simp only [keyLE, Bool.or_eq_true, Bool.and_eq_true, decide_eq_true_eq, beq_iff_eq]
  omega

theorem keyLE_trans (a b c : Nat × Nat) (hab : keyLE a b = true)
    (hbc : keyLE b c = true) : keyLE a c = true := by
  simp only [keyLE, Bool.or_eq_true, Bool.and_eq_true, decide_eq_true_eq,
    beq_iff_eq] at hab hbc ⊢
  omega

/-- The rendered sequence of any store state has strictly increasing render
keys: the sort orders the keys weakly, and the storage-position components
are pairwise distinct. -/
theorem displayed_strict (s : AppState) (quadrantId : String) :
    (displayedWithTieBreak s quadrantId).Pairwise
      (fun a b => keyLT (renderKey a) (renderKey b)) := by
  unfold displayedWithTieBreak
  have hsorted := pairwise_stableSortBy
    (fun a b : Nat × Task => keyLE (renderKey a) (renderKey b))
    (fun a b => keyLE_total (renderKey a) (renderKey b))
    (fun a b c => keyLE_trans (renderKey a) (renderKey b) (renderKey c))
    (s.tasks.enum.filter fun e =>
      e.2.boardId == s.activeBoardId && e.2.quadrantId == quadrantId
        && !e.2.completed &&
        (match s.activeTagFilter with
         | some tag => e.2.tags.contains tag
         | Option.none => true))
  have hne0 : (s.tasks.enum.filter fun e =>
      e.2.boardId == s.activeBoardId && e.2.quadrantId == quadrantId
        && !e.2.completed &&
        (match s.activeTagFilter with
         | some tag => e.2.tags.contains tag
         | Option.none => true)).Pairwise (fun a b : Nat × Task => a.1 ≠ b.1) :=
    ((pairwise_fst_lt_enum s.tasks).filter _).imp Nat.ne_of_lt
  have hne := ((stableSortBy_perm
    (fun a b : Nat × Task => keyLE (renderKey a) (renderKey b)) _).pairwise_iff
    (fun h => Ne.symm h)).mpr hne0
  refine (hsorted.and hne).imp ?_
  intro a b hab
  obtain ⟨hle, hab2⟩ := hab
  simp only [keyLE, Bool.or_eq_true, Bool.and_eq_true, decide_eq_true_eq,
    beq_iff_eq, renderKey] at hle
  simp only [keyLT, renderKey]
  omega

/-- C1: in every store state reachable from the initial store by any
sequence of add, edit, complete, delete, restore, move, reorder and
selector commands (with or without an active tag filter), the rendered
active partition of every quadrant — sorted by order with the documented
stable storage-position tie-break — carries strictly increasing render
keys, so no two tasks occupy the same rendered position. -/
theorem C1_reachable_order_strict (s : AppState) (hreach : Reachable s)
    (quadrantId : String) :
    (displayedWithTieBreak s quadrantId).Pairwise
      (fun a b => keyLT (renderKey a) (renderKey b)) :=
  displayed_strict s quadrantId

/-- C1 witness: a concrete reachable state (three adds, a move and a tag
filter) with strictly increasing render keys in Q1. -/
theorem C1_reachable_order_strict_witness :
    (displayedWithTieBreak (runCmds initState
      [Cmd.add "Q1" ⟨"T1", Option.none, Option.none, "x", Recurrence.none⟩ 5,
       Cmd.add "Q1" ⟨"T2", Option.none, Option.none, "", Recurrence.none⟩ 6,
       Cmd.add "Q2" ⟨"T3", Option.none, Option.none, "x", Recurrence.none⟩ 7,
       Cmd.dropMove "7" "Q2" "Q1" (some 0),
       Cmd.setFilter (some "x")]) "Q1").Pairwise
      (fun a b => keyLT (renderKey a) (renderKey b)) :=
  C1_reachable_order_strict _
    ⟨[Cmd.add "Q1" ⟨"T1", Option.none, Option.none, "x", Recurrence.none⟩ 5,
      Cmd.add "Q1" ⟨"T2", Option.none, Option.none, "", Recurrence.none⟩ 6,
      Cmd.add "Q2" ⟨"T3", Option.none, Option.none, "x", Recurrence.none⟩ 7,
      Cmd.dropMove "7" "Q2" "Q1" (some 0),
      Cmd.setFilter (some "x")], rfl⟩ "Q1"

end NowAndLater
